import Mathlib

/-!
# RivetAnalysis_yy: a shallow embedding of `source/RivetAnalysis_yy.cc`

The analysis plugin has three hooks, `init`, `analyze` and `finalize`.  Every
effect it has on the outside world is a call of a host primitive (`book`,
`fill`, `scale`, `normalize`, `divide`) on one of the handles it holds, so the
embedding is

* `init`      : the list of bookings, in source order;
* `analyze`   : the list of fill calls one event produces, in source order,
                `none` when an element of the lepton vector would be read out
                of bounds;
* `finalize`  : the list of scale / normalize / divide calls, in source order;

together with an interpretation of those calls on a store of histograms.

`double` values are idealised as exact rationals (no rounding, no NaN, no
infinities).  The kinematic accessors of the host (`mass`, `pT`, `eta`, ...)
and its constants (`GeV`, `PI`, `TWOPI`) are not part of the repository; they
are parameters, collected in `Host`.
-/

namespace RivetAnalysis_yy

/-! ## Data model -/

/-- Host four-vector, constructed as `FourMomentum(E, px, py, pz)`. -/
structure FourMomentum where
  E : ℚ
  px : ℚ
  py : ℚ
  pz : ℚ
deriving DecidableEq, Repr

/-- Component-wise sum, the host's `operator+` on four-vectors. -/
instance : Add FourMomentum :=
  ⟨fun a b => ⟨a.E + b.E, a.px + b.px, a.py + b.py, a.pz + b.pz⟩⟩

/-- Particle as seen by the analysis: its momentum and its electric charge.
A `DressedLepton` is a particle too. -/
structure Particle where
  momentum : FourMomentum
  charge : ℚ
deriving DecidableEq, Repr

/-- Constants and kinematic functions owned by the host framework.  They are
parameters of the embedding. -/
structure Host where
  GeV : ℚ
  PI : ℚ
  TWOPI : ℚ
  mass : FourMomentum → ℚ
  pT : FourMomentum → ℚ
  eta : FourMomentum → ℚ
  rap : FourMomentum → ℚ
  phi : FourMomentum → ℚ
  Et : FourMomentum → ℚ
  deltaPhi : Particle → Particle → ℚ

/-- Modelled from the spec: the host accessor `abseta()` is not under src/; it
is the absolute value of the pseudorapidity. -/
def Host.abseta (H : Host) (p : FourMomentum) : ℚ := |H.eta p|

/-- Modelled from the spec: the host accessor `absrap()` is not under src/; it
is the absolute value of the rapidity. -/
def Host.absrap (H : Host) (p : FourMomentum) : ℚ := |H.rap p|

/-- What the four projections used by `analyze` return for one event:
`"leptons"` (dressed leptons), `"FS"`, `"CFS"` and `"CFS_NL"`. -/
structure Event where
  leptons : List Particle
  fs : List Particle
  cfs : List Particle
  cfs_nolep : List Particle
deriving DecidableEq, Repr

/-- The members of type `Histo1DPtr` (source lines 301-311). -/
inductive HistoHandle
  | _histMll | _histPtll | _histDphill | _histAcoll
  | _histLeptonPt1 | _histLeptonPt2 | _histLeptonEta1 | _histLeptonEta2
  | _histMultChNL | _histPtChNL | _histEtaChNL
  | _histMult | _histEta | _histRapidity | _histPt | _histE | _histPhi
  | _histMultCh | _histEtaCh | _histRapidityCh | _histPtCh | _histECh | _histPhiCh
  | _tmphistEtaPlus | _tmphistEtaMinus | _tmphistEtaChPlus | _tmphistEtaChMinus
  | _tmphistRapPlus | _tmphistRapMinus | _tmphistRapChPlus | _tmphistRapChMinus
deriving DecidableEq, Repr, Fintype

/-- The member of type `Profile1DPtr`. -/
inductive ProfileHandle
  | _histEtaSumEt
deriving DecidableEq, Repr, Fintype

/-- The members of type `Scatter2DPtr`. -/
inductive ScatterHandle
  | _histEtaPMRatio | _histEtaChPMRatio | _histRapidityPMRatio | _histRapidityChPMRatio
deriving DecidableEq, Repr, Fintype

open HistoHandle ProfileHandle ScatterHandle

/-! ## `init`: the bookings -/

/-- One `book(...)` call. -/
inductive Booking
  | histo (h : HistoHandle) (name : String) (nbins : ℕ) (lower upper : ℚ)
  | profile (h : ProfileHandle) (name : String) (nbins : ℕ) (lower upper : ℚ)
  | scatter (h : ScatterHandle) (name : String)
deriving DecidableEq, Repr

/-- Name under which a booking registers its object. -/
def Booking.name : Booking → String
  | .histo _ n _ _ _ => n
  | .profile _ n _ _ _ => n
  | .scatter _ n => n

/-- The `book` calls of `init()`, source lines 78-127, in order. -/
def init (H : Host) : List Booking :=
  [ .histo _histMult "Mult" 100 (-0.5) 99.5,
    .histo _histMultCh "MultCh" 100 (-0.5) 99.5,
    .histo _histPt "Pt" 300 0 300,
    .histo _histPtCh "PtCh" 300 0 300,
    .histo _histE "E" 100 0 200,
    .histo _histECh "ECh" 100 0 200,
    .profile _histEtaSumEt "EtaSumEt" 25 0 5,
    .histo _histEta "Eta" 50 (-5) 5,
    .histo _histEtaCh "EtaCh" 50 (-5) 5,
    .histo _tmphistEtaPlus "TMP/EtaPlus" 25 0 5,
    .histo _tmphistEtaMinus "TMP/EtaMinus" 25 0 5,
    .histo _tmphistEtaChPlus "TMP/EtaChPlus" 25 0 5,
    .histo _tmphistEtaChMinus "TMP/EtaChMinus" 25 0 5,
    .histo _histRapidity "Rapidity" 50 (-5) 5,
    .histo _histRapidityCh "RapidityCh" 50 (-5) 5,
    .histo _tmphistRapPlus "TMP/RapPlus" 25 0 5,
    .histo _tmphistRapMinus "TMP/RapMinus" 25 0 5,
    .histo _tmphistRapChPlus "TMP/RapChPlus" 25 0 5,
    .histo _tmphistRapChMinus "TMP/RapChMinus" 25 0 5,
    .histo _histPhi "Phi" 50 0 H.TWOPI,
    .histo _histPhiCh "PhiCh" 50 0 H.TWOPI,
    .scatter _histEtaPMRatio "EtaPMRatio",
    .scatter _histEtaChPMRatio "EtaChPMRatio",
    .scatter _histRapidityPMRatio "RapidityPMRatio",
    .scatter _histRapidityChPMRatio "RapidityChPMRatio",
    .histo _histLeptonPt1 "ptlepton1" 100 0 100,
    .histo _histLeptonPt2 "ptlepton2" 100 0 100,
    .histo _histLeptonEta1 "etalepton1" 50 (-2.5) 2.5,
    .histo _histLeptonEta2 "etalepton2" 50 (-2.5) 2.5,
    .histo _histMll "mll" 500 0 500,
    .histo _histPtll "ptll" 500 0 500,
    .histo _histDphill "Dphill" 64 (-3.2) 3.2,
    .histo _histAcoll "Acoll" 100 0 1.0,
    .histo _histMultChNL "MultCh " 50 (-0.5) 49.5,
    .histo _histPtChNL "PtCh " 500 0 500,
    .histo _histEtaChNL "EtaCh " 100 (-5.0) 5.0 ]

/-- Number of `book` calls of `init()` that bind the histogram handle `h`. -/
def timesBookedHisto (bs : List Booking) (h : HistoHandle) : ℕ :=
  bs.countP fun b => match b with
    | .histo k _ _ _ _ => decide (k = h)
    | _ => false

/-- Number of `book` calls that bind the profile handle `h`. -/
def timesBookedProfile (bs : List Booking) (h : ProfileHandle) : ℕ :=
  bs.countP fun b => match b with
    | .profile k _ _ _ _ => decide (k = h)
    | _ => false

/-- Number of `book` calls that bind the scatter handle `h`. -/
def timesBookedScatter (bs : List Booking) (h : ScatterHandle) : ℕ :=
  bs.countP fun b => match b with
    | .scatter k _ => decide (k = h)
    | _ => false

/-- Binning `(nbins, lower, upper)` with which the histogram handle `h` is
booked (the first booking of `h`, if any). -/
def bookedBinning (bs : List Booking) (h : HistoHandle) : Option (ℕ × ℚ × ℚ) :=
  bs.findSome? fun b => match b with
    | .histo k _ n lo hi => if k = h then some (n, lo, hi) else none
    | _ => none

/-! ## `analyze`: the fills of one event -/

/-- One call of a host `fill` method. -/
inductive Action
  | fill (h : HistoHandle) (x : ℚ)
  | fillProfile (h : ProfileHandle) (x y : ℚ)
deriving DecidableEq, Repr

/-- The locals `analyze` computes before any histogram is touched
(source lines 176-190). -/
structure Kinematics where
  dilepton : FourMomentum
  l1 : FourMomentum
  l2 : FourMomentum
  Etal1 : ℚ
  Etal2 : ℚ
  mll : ℚ
  pTll : ℚ
  dphill : ℚ
  aco : ℚ
  Ptl1 : ℚ
  Ptl2 : ℚ
deriving DecidableEq, Repr

/-- Checked element read `leptons[i]`: `none` stands for a read past the end
of the vector. -/
def readAt (leptons : List Particle) (i : ℕ) : Option Particle := leptons[i]?

/-- Source lines 176-190.  Every `leptons[i]` of the source is a `readAt`, so
an out-of-bounds read makes the result `none`. -/
def kinematics (H : Host) (leptons : List Particle) : Option Kinematics :=
  (if leptons.length > 1 then
      (readAt leptons 0).bind fun a => (readAt leptons 1).bind fun b =>
        some (a.momentum + b.momentum)
    else some ⟨0, 0, 0, 0⟩).bind fun dilepton =>
  (if leptons.length > 0 then (readAt leptons 0).bind fun a => some a.momentum
    else some ⟨0, 0, 0, 0⟩).bind fun l1 =>
  (if leptons.length > 1 then (readAt leptons 1).bind fun b => some b.momentum
    else some ⟨0, 0, 0, 0⟩).bind fun l2 =>
  let Etal1 : ℚ := if leptons.length > 0 then H.eta l1 else -15
  let Etal2 : ℚ := if leptons.length > 1 then H.eta l2 else -15
  let mll : ℚ := if leptons.length > 1 then H.mass dilepton / H.GeV else -1
  let pTll : ℚ := if leptons.length > 1 then H.pT dilepton / H.GeV else -1
  (if leptons.length > 1 then
      (readAt leptons 0).bind fun a => (readAt leptons 1).bind fun b =>
        some |H.deltaPhi a b|
    else some (-1)).bind fun dphill =>
  (if leptons.length > 1 then
      (readAt leptons 0).bind fun a => (readAt leptons 1).bind fun b =>
        some |1 - (H.phi a.momentum - H.phi b.momentum) / H.PI|
    else some (-1)).bind fun aco =>
  let Ptl1 : ℚ := if leptons.length > 0 then H.pT l1 / H.GeV else -1
  let Ptl2 : ℚ := if leptons.length > 1 then H.pT l2 / H.GeV else -1
  some ⟨dilepton, l1, l2, Etal1, Etal2, mll, pTll, dphill, aco, Ptl1, Ptl2⟩

/-- Body of the loop over the FS particles, source lines 196-205. -/
def fsFills (H : Host) (p : Particle) : List Action :=
  [ .fill _histEta (H.eta p.momentum),
    .fillProfile _histEtaSumEt (H.abseta p.momentum) (H.Et p.momentum),
    .fill (if H.eta p.momentum > 0 then _tmphistEtaPlus else _tmphistEtaMinus)
      (H.abseta p.momentum),
    .fill _histRapidity (H.rap p.momentum),
    .fill (if H.rap p.momentum > 0 then _tmphistRapPlus else _tmphistRapMinus)
      (H.absrap p.momentum),
    .fill _histPt (H.pT p.momentum / H.GeV),
    .fill _histE (p.momentum.E / H.GeV),
    .fill _histPhi (H.phi p.momentum) ]

/-- Body of the loop over the CFS particles, source lines 213-221. -/
def cfsFills (H : Host) (p : Particle) : List Action :=
  [ .fill _histEtaCh (H.eta p.momentum),
    .fill (if H.eta p.momentum > 0 then _tmphistEtaChPlus else _tmphistEtaChMinus)
      (H.abseta p.momentum),
    .fill _histRapidityCh (H.rap p.momentum),
    .fill (if H.rap p.momentum > 0 then _tmphistRapChPlus else _tmphistRapChMinus)
      (H.absrap p.momentum),
    .fill _histPtCh (H.pT p.momentum / H.GeV),
    .fill _histECh (p.momentum.E / H.GeV),
    .fill _histPhiCh (H.phi p.momentum) ]

/-- The fills made before the selection, source lines 193-222. -/
def inclusiveFills (H : Host) (event : Event) : List Action :=
  [.fill _histMult (event.fs.length : ℚ)]
    ++ event.fs.flatMap (fsFills H)
    ++ [.fill _histMultCh (event.cfs.length : ℚ)]
    ++ event.cfs.flatMap (cfsFills H)

/-- Body of the loop over the CFS_NL particles, source lines 252-253. -/
def nolepFills (H : Host) (p : Particle) : List Action :=
  [ .fill _histEtaChNL (H.eta p.momentum),
    .fill _histPtChNL (H.pT p.momentum / H.GeV) ]

/-- The fills made after the selection, source lines 240-254. -/
def selectedFills (H : Host) (event : Event) (k : Kinematics) : List Action :=
  [ .fill _histMll k.mll,
    .fill _histPtll k.pTll,
    .fill _histDphill k.dphill,
    .fill _histAcoll k.aco,
    .fill _histLeptonPt1 k.Ptl1,
    .fill _histLeptonPt2 k.Ptl2,
    .fill _histLeptonEta1 k.Etal1,
    .fill _histLeptonEta2 k.Etal2,
    .fill _histMultChNL (event.cfs_nolep.length : ℚ) ]
    ++ event.cfs_nolep.flatMap (nolepFills H)

/-- The per-event hook `analyze(event)`, source lines 142-256: the fill calls
it makes, in order.  The host macro `vetoEvent` returns from the hook: the
event gets no further fill, the fills already made stay. -/
def analyze (H : Host) (event : Event) : Option (List Action) :=
  (kinematics H event.leptons).bind fun k =>
    if event.leptons.length ≠ 2 then some (inclusiveFills H event)
    else
      (readAt event.leptons 0).bind fun a => (readAt event.leptons 1).bind fun b =>
        if a.charge = b.charge then some (inclusiveFills H event)
        else some (inclusiveFills H event ++ selectedFills H event k)

/-- Values filled into the histogram `h` by a sequence of calls, in order. -/
def fillsOf (acts : List Action) (h : HistoHandle) : List ℚ :=
  acts.filterMap fun a => match a with
    | .fill k x => if k = h then some x else none
    | .fillProfile _ _ _ => none

/-- Pairs `(x, y)` filled into the profile `h` by a sequence of calls. -/
def profileFillsOf (acts : List Action) (h : ProfileHandle) : List (ℚ × ℚ) :=
  acts.filterMap fun a => match a with
    | .fill _ _ => none
    | .fillProfile k x y => if k = h then some (x, y) else none

/-! ## The store of analysis objects and the host primitives -/

/-- Modelled from the spec: the host's one-dimensional histogram is not under
src/.  It is kept as its booked binning and the weighted entries it has
received, `(x, weight)`, oldest first. -/
structure Histo1D where
  nbins : ℕ
  lower : ℚ
  upper : ℚ
  entries : List (ℚ × ℚ)
deriving DecidableEq, Repr

/-- Modelled from the spec: the host's profile histogram, as its booked
binning and the entries `(x, y, weight)` it has received. -/
structure Profile1D where
  nbins : ℕ
  lower : ℚ
  upper : ℚ
  entries : List (ℚ × ℚ × ℚ)
deriving DecidableEq, Repr

/-- Modelled from the spec: the host's scatter object, as the list of its
point values, one per bin. -/
structure Scatter2D where
  points : List ℚ
deriving DecidableEq, Repr

/-- The analysis objects behind the handles of the plugin. -/
structure Store where
  histo : HistoHandle → Histo1D
  profile : ProfileHandle → Profile1D
  scatter : ScatterHandle → Scatter2D

/-- Replace the histogram behind `h`. -/
def Store.setHisto (s : Store) (h : HistoHandle) (v : Histo1D) : Store :=
  { s with histo := fun k => if k = h then v else s.histo k }

/-- Replace the profile behind `h`. -/
def Store.setProfile (s : Store) (h : ProfileHandle) (v : Profile1D) : Store :=
  { s with profile := fun k => if k = h then v else s.profile k }

/-- Replace the scatter behind `h`. -/
def Store.setScatter (s : Store) (h : ScatterHandle) (v : Scatter2D) : Store :=
  { s with scatter := fun k => if k = h then v else s.scatter k }

/-- Modelled from the spec: `Histo1D::fill(x)` records one entry of weight 1. -/
def Histo1D.fill (h : Histo1D) (x : ℚ) : Histo1D :=
  { h with entries := h.entries ++ [(x, 1)] }

/-- Modelled from the spec: `Profile1D::fill(x, y)` records one entry of
weight 1. -/
def Profile1D.fill (h : Profile1D) (x y : ℚ) : Profile1D :=
  { h with entries := h.entries ++ [(x, y, 1)] }

/-- Modelled from the spec: the integral of a histogram, the sum of the
weights of all its entries (under- and overflow included). -/
def Histo1D.integral (h : Histo1D) : ℚ := (h.entries.map Prod.snd).sum

/-- Modelled from the spec: host `scale(histo, factor)` multiplies every
weight by `factor`. -/
def Histo1D.scale (h : Histo1D) (factor : ℚ) : Histo1D :=
  { h with entries := h.entries.map fun e => (e.1, e.2 * factor) }

/-- Modelled from the spec: host `normalize(histo)` rescales to unit area; a
histogram of zero area is left as it is. -/
def Histo1D.normalize (h : Histo1D) : Histo1D :=
  if h.integral = 0 then h else h.scale (1 / h.integral)

/-- Modelled from the spec: sum of the weights that fell into bin `i`
(`0 ≤ i < nbins`) of the booked range; the bin is closed below, open above. -/
def Histo1D.binSumW (h : Histo1D) (i : ℕ) : ℚ :=
  let width : ℚ := (h.upper - h.lower) / h.nbins
  ((h.entries.filter fun e =>
      decide (h.lower + i * width ≤ e.1) && decide (e.1 < h.lower + (i + 1) * width)).map
    Prod.snd).sum

/-- Modelled from the spec: host `divide(num, den, scatter)` makes the scatter
the bin-by-bin quotient of the two histograms, one point per bin of the
numerator.  (A bin with an empty denominator is not-a-number in the host; here
it is the rational `x / 0 = 0`.) -/
def divide (num den : Histo1D) : Scatter2D :=
  ⟨(List.range num.nbins).map fun i => num.binSumW i / den.binSumW i⟩

/-- Effect of one fill call on the store. -/
def Store.apply (s : Store) : Action → Store
  | .fill h x => s.setHisto h ((s.histo h).fill x)
  | .fillProfile h x y => s.setProfile h ((s.profile h).fill x y)

/-- Effect of a sequence of fill calls on the store. -/
def Store.applyAll (s : Store) (acts : List Action) : Store :=
  acts.foldl Store.apply s

/-! ## `finalize` -/

/-- One call made by `finalize`. -/
inductive FinalizeCall
  | scale (h : HistoHandle) (factor : ℚ)
  | normalize (h : HistoHandle)
  | divide (num den : HistoHandle) (out : ScatterHandle)
deriving DecidableEq, Repr

/-- The hook `finalize()`, source lines 260-285: the calls it makes, in order.
`crossSection` and `sumOfWeights` are the run-level values the host reports. -/
def finalize (crossSection sumOfWeights : ℚ) : List FinalizeCall :=
  let normfac : ℚ := crossSection / sumOfWeights
  [ .scale _histMll normfac,
    .scale _histPtll normfac,
    .scale _histDphill normfac,
    .scale _histAcoll normfac,
    .scale _histLeptonPt1 normfac,
    .scale _histLeptonPt2 normfac,
    .scale _histLeptonEta1 normfac,
    .scale _histLeptonEta2 normfac,
    .scale _histMultChNL normfac,
    .scale _histPtChNL normfac,
    .scale _histEtaChNL normfac,
    .normalize _histMult, .normalize _histEta, .normalize _histRapidity,
    .normalize _histPt, .normalize _histE, .normalize _histPhi,
    .normalize _histMultCh, .normalize _histEtaCh, .normalize _histRapidityCh,
    .normalize _histPtCh, .normalize _histECh, .normalize _histPhiCh,
    .divide _tmphistEtaPlus _tmphistEtaMinus _histEtaPMRatio,
    .divide _tmphistEtaChPlus _tmphistEtaChMinus _histEtaChPMRatio,
    .divide _tmphistRapPlus _tmphistRapMinus _histRapidityPMRatio,
    .divide _tmphistRapChPlus _tmphistRapChMinus _histRapidityChPMRatio ]

/-- Effect of one `finalize` call on the store. -/
def Store.finish (s : Store) : FinalizeCall → Store
  | .scale h factor => s.setHisto h ((s.histo h).scale factor)
  | .normalize h => s.setHisto h ((s.histo h).normalize)
  | .divide num den out => s.setScatter out (divide (s.histo num) (s.histo den))

/-- What one `finalize` call does to the histogram behind `h`. -/
def FinalizeCall.onHisto (h : HistoHandle) (x : Histo1D) : FinalizeCall → Histo1D
  | .scale k f => if k = h then x.scale f else x
  | .normalize k => if k = h then x.normalize else x
  | .divide _ _ _ => x

/-- The store after `finalize()`. -/
def Store.finalized (s : Store) (crossSection sumOfWeights : ℚ) : Store :=
  (finalize crossSection sumOfWeights).foldl Store.finish s

/-- Factors with which a sequence of `finalize` calls scales `h`, in order. -/
def scalesOf (calls : List FinalizeCall) (h : HistoHandle) : List ℚ :=
  calls.filterMap fun c => match c with
    | .scale k f => if k = h then some f else none
    | _ => none

/-- Number of `normalize` calls on `h`. -/
def normalizesOf (calls : List FinalizeCall) (h : HistoHandle) : ℕ :=
  calls.countP fun c => match c with
    | .normalize k => decide (k = h)
    | _ => false

/-- The `(numerator, denominator)` pairs divided into the scatter `out`. -/
def dividesInto (calls : List FinalizeCall) (out : ScatterHandle) :
    List (HistoHandle × HistoHandle) :=
  calls.filterMap fun c => match c with
    | .divide n d k => if k = out then some (n, d) else none
    | _ => none

/-- Whether `init` books the handle an `analyze` call fills exactly once. -/
def Action.bookedOnce (bs : List Booking) : Action → Prop
  | .fill h _ => timesBookedHisto bs h = 1
  | .fillProfile h _ _ => timesBookedProfile bs h = 1

/-- Whether `init` books every handle a `finalize` call touches exactly once. -/
def FinalizeCall.bookedOnce (bs : List Booking) : FinalizeCall → Prop
  | .scale h _ => timesBookedHisto bs h = 1
  | .normalize h => timesBookedHisto bs h = 1
  | .divide num den out =>
    timesBookedHisto bs num = 1 ∧ timesBookedHisto bs den = 1 ∧ timesBookedScatter bs out = 1

/-! ## The handle groups named by the specification -/

/-- The eleven histograms filled after the selection. -/
def postSelection : List HistoHandle :=
  [ _histMll, _histPtll, _histDphill, _histAcoll,
    _histLeptonPt1, _histLeptonPt2, _histLeptonEta1, _histLeptonEta2,
    _histMultChNL, _histPtChNL, _histEtaChNL ]

/-- The twelve inclusive histograms: Mult, Eta, Rapidity, Pt, E, Phi and their
charged counterparts. -/
def inclusive : List HistoHandle :=
  [ _histMult, _histEta, _histRapidity, _histPt, _histE, _histPhi,
    _histMultCh, _histEtaCh, _histRapidityCh, _histPtCh, _histECh, _histPhiCh ]

/-- The eight sign-split temporary histograms. -/
def temporaries : List HistoHandle :=
  [ _tmphistEtaPlus, _tmphistEtaMinus, _tmphistEtaChPlus, _tmphistEtaChMinus,
    _tmphistRapPlus, _tmphistRapMinus, _tmphistRapChPlus, _tmphistRapChMinus ]

/-! ## A concrete host for evaluating the model -/

/-- The `double` nearest to π, as an exact rational: `0x400921FB54442D18`. -/
def piDouble : ℚ := 884279719003555 / 281474976710656

/-- Azimuthal angle of a momentum lying along a transverse axis. -/
def samplePhi (p : FourMomentum) : ℚ :=
  if p.py = 0 then (if 0 ≤ p.px then 0 else piDouble)
  else if 0 < p.py then piDouble / 2 else 3 * piDouble / 2

/-- Host used to evaluate the model on concrete events.  Its constants are
those of the framework (`GeV = 1`, `PI` the double nearest π).  Its kinematic
functions are exact for momenta that lie along a transverse axis (`pz = 0` and
one of `px`, `py` zero), where they are rational: `pT = |px| + |py|`,
`eta = rap = 0`, `Et = E`, `phi ∈ {0, PI/2, PI, 3 PI/2}`, `deltaPhi` the
separation of the two `phi` folded into `[0, PI]`; `mass` is exact for momenta
at rest. -/
def sampleHost : Host where
  GeV := 1
  PI := piDouble
  TWOPI := 2 * piDouble
  mass := fun p => if p.px = 0 ∧ p.py = 0 ∧ p.pz = 0 then p.E else 0
  pT := fun p => |p.px| + |p.py|
  eta := fun _ => 0
  rap := fun _ => 0
  phi := samplePhi
  Et := fun p => p.E
  deltaPhi := fun a b =>
    let d : ℚ := |samplePhi a.momentum - samplePhi b.momentum|
    if d > piDouble then 2 * piDouble - d else d

/-- A lepton of 20 GeV flying along `+x` (`phi = 0`), charge `+1`. -/
def lepPlusX : Particle := ⟨⟨20, 20, 0, 0⟩, 1⟩

/-- A lepton of 20 GeV flying along `-x` (`phi = PI`), charge `-1`. -/
def lepMinusX : Particle := ⟨⟨20, -20, 0, 0⟩, -1⟩

/-- A lepton of 20 GeV flying along `+y` (`phi = PI/2`), charge `-1`. -/
def lepPlusY : Particle := ⟨⟨20, 0, 20, 0⟩, -1⟩

/-- A lepton of 20 GeV flying along `-y` (`phi = 3 PI/2`), charge `-1`. -/
def lepMinusY : Particle := ⟨⟨20, 0, -20, 0⟩, -1⟩

/-- A charged hadron of 2 GeV flying along `+x`. -/
def hadron : Particle := ⟨⟨2, 2, 0, 0⟩, 1⟩

/-- An event with two dressed leptons of equal charge (both `-1`), three
particles in FS, two in CFS and one in CFS_NL. -/
def sameChargeEvent : Event :=
  ⟨[lepPlusY, lepMinusX], [lepPlusY, lepMinusX, hadron], [lepPlusY, hadron], [hadron]⟩

/-- An event with two dressed leptons of opposite charge, back to back. -/
def selectedEvent : Event :=
  ⟨[lepPlusX, lepMinusX], [lepPlusX, lepMinusX, hadron], [lepPlusX, lepMinusX, hadron],
    [hadron]⟩

/-- An event whose two opposite-charge leptons have `phi0 = 3 PI/2` and
`phi1 = 0`. -/
def wideAngleEvent : Event :=
  ⟨[lepMinusY, lepPlusX], [lepMinusY, lepPlusX], [lepMinusY, lepPlusX], []⟩

/-- An event whose two opposite-charge leptons have `phi0 = 0` and
`phi1 = PI/2`. -/
def offRangeEvent : Event :=
  ⟨[lepPlusX, lepPlusY], [lepPlusX, lepPlusY], [lepPlusX, lepPlusY], []⟩

/-- A store after some events: TMP/EtaPlus holds weight 2 in its first bin and
1 in its second, TMP/EtaMinus 1 and 2; every other histogram holds the entries
`(1/2, 1)` and `(3/2, 3)`. -/
def sampleStore : Store where
  histo := fun h =>
    if h = _tmphistEtaPlus then ⟨25, 0, 5, [(1 / 10, 1), (1 / 10, 1), (3 / 10, 1)]⟩
    else if h = _tmphistEtaMinus then ⟨25, 0, 5, [(1 / 10, 1), (3 / 10, 1), (3 / 10, 1)]⟩
    else ⟨10, 0, 5, [(1 / 2, 1), (3 / 2, 3)]⟩
  profile := fun _ => ⟨25, 0, 5, []⟩
  scatter := fun _ => ⟨[]⟩

/-! ## Lemmas on the sequence of fills -/

theorem fillsOf_nil (h : HistoHandle) : fillsOf [] h = [] := rfl

theorem fillsOf_cons_fill (k h : HistoHandle) (x : ℚ) (t : List Action) :
    fillsOf (.fill k x :: t) h = if k = h then x :: fillsOf t h else fillsOf t h := by
  by_cases hk : k = h <;> simp [fillsOf, List.filterMap_cons, hk]

theorem fillsOf_cons_fillProfile (k : ProfileHandle) (h : HistoHandle) (x y : ℚ)
    (t : List Action) : fillsOf (.fillProfile k x y :: t) h = fillsOf t h := by
  simp [fillsOf, List.filterMap_cons]

theorem profileFillsOf_nil (h : ProfileHandle) : profileFillsOf [] h = [] := rfl

theorem profileFillsOf_cons_fill (k : HistoHandle) (h : ProfileHandle) (x : ℚ)
    (t : List Action) : profileFillsOf (.fill k x :: t) h = profileFillsOf t h := by
  simp [profileFillsOf, List.filterMap_cons]

theorem profileFillsOf_cons_fillProfile (k h : ProfileHandle) (x y : ℚ) (t : List Action) :
    profileFillsOf (.fillProfile k x y :: t) h
      = if k = h then (x, y) :: profileFillsOf t h else profileFillsOf t h := by
  by_cases hk : k = h <;> simp [profileFillsOf, List.filterMap_cons, hk]

theorem fillsOf_append (a b : List Action) (h : HistoHandle) :
    fillsOf (a ++ b) h = fillsOf a h ++ fillsOf b h := by
  simp [fillsOf, List.filterMap_append]

theorem fillsOf_flatMap (l : List Particle) (g : Particle → List Action) (h : HistoHandle) :
    fillsOf (l.flatMap g) h = l.flatMap fun p => fillsOf (g p) h := by
  induction l with
  | nil => simp [fillsOf]
  | cons p t ih => simp [List.flatMap_cons, fillsOf_append, ih]

theorem profileFillsOf_append (a b : List Action) (h : ProfileHandle) :
    profileFillsOf (a ++ b) h = profileFillsOf a h ++ profileFillsOf b h := by
  simp [profileFillsOf, List.filterMap_append]

theorem profileFillsOf_flatMap (l : List Particle) (g : Particle → List Action)
    (h : ProfileHandle) :
    profileFillsOf (l.flatMap g) h = l.flatMap fun p => profileFillsOf (g p) h := by
  induction l with
  | nil => simp [profileFillsOf]
  | cons p t ih => simp [List.flatMap_cons, profileFillsOf_append, ih]

theorem flatMap_single {α β : Type} (l : List α) (f : α → β) :
    (l.flatMap fun p => [f p]) = l.map f := by
  induction l with
  | nil => rfl
  | cons p t ih => simp [List.flatMap_cons, ih]

theorem flatMap_none {α β : Type} (l : List α) :
    (l.flatMap fun _ => ([] : List β)) = [] := by
  induction l with
  | nil => rfl
  | cons p t ih => simp [List.flatMap_cons, ih]

theorem flatMap_guard {α β : Type} (l : List α) (c : α → Prop) [DecidablePred c]
    (f : α → β) :
    (l.flatMap fun p => if c p then [f p] else []) = (l.filter fun p => decide (c p)).map f := by
  induction l with
  | nil => rfl
  | cons p t ih =>
    by_cases hc : c p <;> simp [List.flatMap_cons, List.filter_cons, hc, ih]

/-- The kinematic locals are always computed: no read of `leptons` is out of
bounds. -/
theorem kinematics_some (H : Host) (leptons : List Particle) :
    ∃ k, kinematics H leptons = some k := by
  match leptons with
  | [] => exact ⟨_, by simp [kinematics]; rfl⟩
  | [a] => exact ⟨_, by simp [kinematics, readAt]; rfl⟩
  | a :: b :: t => exact ⟨_, by simp [kinematics, readAt]; rfl⟩


/-- With anything but two leptons the event is vetoed after the inclusive
fills. -/
theorem analyze_not_two (H : Host) (ev : Event) (hn : ev.leptons.length ≠ 2) :
    analyze H ev = some (inclusiveFills H ev) := by
  obtain ⟨k, hk⟩ := kinematics_some H ev.leptons
  simp [analyze, hk, hn]

/-- With two leptons of equal charge the event is vetoed after the inclusive
fills. -/
theorem analyze_same_charge (H : Host) (ev : Event) (a b : Particle)
    (hl : ev.leptons = [a, b]) (hc : a.charge = b.charge) :
    analyze H ev = some (inclusiveFills H ev) := by
  obtain ⟨k, hk⟩ := kinematics_some H [a, b]
  simp [analyze, hk, hl, readAt, hc]

/-- With two leptons of opposite charge every fill of `analyze` is made. -/
theorem analyze_selected (H : Host) (ev : Event) (a b : Particle)
    (hl : ev.leptons = [a, b]) (hc : a.charge ≠ b.charge) :
    ∃ k, kinematics H [a, b] = some k ∧
      analyze H ev = some (inclusiveFills H ev ++ selectedFills H ev k) := by
  obtain ⟨k, hk⟩ := kinematics_some H [a, b]
  exact ⟨k, hk, by simp [analyze, hk, hl, readAt, hc]⟩

/-- Whatever the event, `analyze` returns, and its fills start with the
inclusive ones; what follows are fills made after the selection. -/
theorem analyze_shape (H : Host) (ev : Event) :
    ∃ rest, analyze H ev = some (inclusiveFills H ev ++ rest) ∧
      (rest = [] ∨ ∃ k, rest = selectedFills H ev k) := by
  by_cases hn : ev.leptons.length = 2
  · match hl : ev.leptons, hn with
    | [a, b], _ =>
      by_cases hc : a.charge = b.charge
      · exact ⟨[], by simp [analyze_same_charge H ev a b hl hc], Or.inl rfl⟩
      · obtain ⟨k, -, hk⟩ := analyze_selected H ev a b hl hc
        exact ⟨_, hk, Or.inr ⟨k, rfl⟩⟩
  · exact ⟨[], by simp [analyze_not_two H ev hn], Or.inl rfl⟩


theorem filter_length_split {α : Type} (l : List α) (c : α → Prop) [DecidablePred c] :
    (l.filter fun p => decide (c p)).length + (l.filter fun p => decide (¬ c p)).length
      = l.length := by
  induction l with
  | nil => rfl
  | cons p t ih =>
    by_cases hc : c p <;> simp [List.filter_cons, hc] at ih ⊢ <;> omega

/-- No fill made before the selection goes to a post-selection histogram. -/
theorem fillsOf_inclusiveFills_postSelection (H : Host) (ev : Event) (h : HistoHandle)
    (hh : h ∈ postSelection) : fillsOf (inclusiveFills H ev) h = [] := by
  simp only [postSelection, List.mem_cons, List.mem_singleton, List.not_mem_nil, or_false] at hh
  rcases hh with rfl | rfl | rfl | rfl | rfl | rfl | rfl | rfl | rfl | rfl | rfl <;>
    simp [inclusiveFills, fsFills, cfsFills, fillsOf_append, fillsOf_flatMap, fillsOf_nil,
      fillsOf_cons_fill, fillsOf_cons_fillProfile, ite_eq_iff, flatMap_none]

/-- No fill made after the selection goes to an inclusive or temporary
histogram. -/
theorem fillsOf_selectedFills_other (H : Host) (ev : Event) (k : Kinematics) (h : HistoHandle)
    (hh : h ∉ postSelection) : fillsOf (selectedFills H ev k) h = [] := by
  cases h <;> first
    | exact absurd (by decide) hh
    | simp [selectedFills, nolepFills, fillsOf_append, fillsOf_flatMap, fillsOf_nil,
        fillsOf_cons_fill, fillsOf_cons_fillProfile, flatMap_none]

theorem profileFillsOf_selectedFills (H : Host) (ev : Event) (k : Kinematics)
    (h : ProfileHandle) : profileFillsOf (selectedFills H ev k) h = [] := by
  simp [selectedFills, nolepFills, profileFillsOf_append, profileFillsOf_flatMap,
    profileFillsOf_nil, profileFillsOf_cons_fill, flatMap_none]

/-- A sequence of fills appends its values, with weight 1, to the entries of
each histogram and leaves the binning alone. -/
theorem applyAll_histo (acts : List Action) (s : Store) (h : HistoHandle) :
    (s.applyAll acts).histo h
      = { s.histo h with
          entries := (s.histo h).entries ++ (fillsOf acts h).map fun x => (x, 1) } := by
  induction acts generalizing s with
  | nil => simp [Store.applyAll, fillsOf_nil]
  | cons a t ih =>
    have step : (s.applyAll (a :: t)) = (s.apply a).applyAll t := rfl
    rw [step, ih]
    cases a with
    | fill k x =>
      by_cases hk : k = h
      · subst hk
        simp [Store.apply, Store.setHisto, Histo1D.fill, fillsOf_cons_fill]
      · have hk2 : ¬ h = k := fun e => hk e.symm
        simp [Store.apply, Store.setHisto, fillsOf_cons_fill, hk, hk2]
    | fillProfile k x y =>
      simp [Store.apply, Store.setProfile, fillsOf_cons_fillProfile]

/-! ## The claims -/

/-- C1: an event whose dressed-lepton list does not have exactly two entries,
or has two entries of equal charge, makes `analyze` return without a single
fill to any of the eleven post-selection histograms, so the store holds the
same eleven histograms before and after. -/
theorem C1_vetoed_event_fills_no_postSelection (H : Host) (ev : Event)
    (hveto : ev.leptons.length ≠ 2 ∨
      ∃ a b, ev.leptons = [a, b] ∧ a.charge = b.charge) :
    ∃ acts, analyze H ev = some acts ∧
      (∀ h ∈ postSelection, fillsOf acts h = []) ∧
      (∀ (s : Store), ∀ h ∈ postSelection, (s.applyAll acts).histo h = s.histo h) := by
  have hacts : analyze H ev = some (inclusiveFills H ev) := by
    rcases hveto with hn | ⟨a, b, hl, hc⟩
    · exact analyze_not_two H ev hn
    · exact analyze_same_charge H ev a b hl hc
  refine ⟨_, hacts, fun h hh => fillsOf_inclusiveFills_postSelection H ev h hh, ?_⟩
  intro s h hh
  rw [applyAll_histo, fillsOf_inclusiveFills_postSelection H ev h hh]
  simp


/-- C1 at `sameChargeEvent`: two leptons of charge `-1`. -/
theorem C1_vetoed_event_witness :
    (sameChargeEvent.leptons.length ≠ 2 ∨
      ∃ a b, sameChargeEvent.leptons = [a, b] ∧ a.charge = b.charge) ∧
    ∃ acts, analyze sampleHost sameChargeEvent = some acts ∧
      (∀ h ∈ postSelection, fillsOf acts h = []) ∧
      (∀ (s : Store), ∀ h ∈ postSelection, (s.applyAll acts).histo h = s.histo h) :=
  ⟨Or.inr ⟨lepPlusY, lepMinusX, rfl, rfl⟩,
    C1_vetoed_event_fills_no_postSelection sampleHost sameChargeEvent
      (Or.inr ⟨lepPlusY, lepMinusX, rfl, rfl⟩)⟩

/-- The kinematic locals of an event with exactly two leptons. -/
theorem kinematics_two (H : Host) (a b : Particle) :
    kinematics H [a, b] = some
      { dilepton := a.momentum + b.momentum
        l1 := a.momentum
        l2 := b.momentum
        Etal1 := H.eta a.momentum
        Etal2 := H.eta b.momentum
        mll := H.mass (a.momentum + b.momentum) / H.GeV
        pTll := H.pT (a.momentum + b.momentum) / H.GeV
        dphill := |H.deltaPhi a b|
        aco := |1 - (H.phi a.momentum - H.phi b.momentum) / H.PI|
        Ptl1 := H.pT a.momentum / H.GeV
        Ptl2 := H.pT b.momentum / H.GeV } := by
  simp [kinematics, readAt]

/-- C2: for an event with exactly two dressed leptons of opposite charge,
`analyze` returns and has filled mll, ptll, Dphill, ptlepton1, ptlepton2,
etalepton1 and etalepton2 exactly once each, with the values computed from the
two list entries (`p0`, `p1` their momenta): `mass(p0 + p1)/GeV`,
`pT(p0 + p1)/GeV`, `|deltaPhi(lepton0, lepton1)|`, `pT(p0)/GeV`, `pT(p1)/GeV`,
`eta(p0)`, `eta(p1)`; `_histMultChNL` is filled once with the size of CFS_NL,
and `_histEtaChNL`, `_histPtChNL` once per CFS_NL particle. -/
theorem C2_selected_event_fills (H : Host) (ev : Event) (a b : Particle)
    (hl : ev.leptons = [a, b]) (hc : a.charge ≠ b.charge) :
    ∃ acts, analyze H ev = some acts ∧
      fillsOf acts _histMll = [H.mass (a.momentum + b.momentum) / H.GeV] ∧
      fillsOf acts _histPtll = [H.pT (a.momentum + b.momentum) / H.GeV] ∧
      fillsOf acts _histDphill = [|H.deltaPhi a b|] ∧
      fillsOf acts _histLeptonPt1 = [H.pT a.momentum / H.GeV] ∧
      fillsOf acts _histLeptonPt2 = [H.pT b.momentum / H.GeV] ∧
      fillsOf acts _histLeptonEta1 = [H.eta a.momentum] ∧
      fillsOf acts _histLeptonEta2 = [H.eta b.momentum] ∧
      fillsOf acts _histMultChNL = [(ev.cfs_nolep.length : ℚ)] ∧
      fillsOf acts _histEtaChNL = ev.cfs_nolep.map (fun p => H.eta p.momentum) ∧
      fillsOf acts _histPtChNL = ev.cfs_nolep.map (fun p => H.pT p.momentum / H.GeV) := by
  obtain ⟨k, hk, hacts⟩ := analyze_selected H ev a b hl hc
  rw [kinematics_two] at hk
  cases hk
  refine ⟨_, hacts, ?_, ?_, ?_, ?_, ?_, ?_, ?_, ?_, ?_, ?_⟩ <;>
    simp [fillsOf_append, fillsOf_inclusiveFills_postSelection, postSelection, selectedFills,
      nolepFills, fillsOf_flatMap, fillsOf_nil, fillsOf_cons_fill, flatMap_single,
      flatMap_none]

/-- C2 at `selectedEvent`: leptons of charge `+1` and `-1`. -/
theorem C2_selected_event_witness :
    (selectedEvent.leptons = [lepPlusX, lepMinusX] ∧ lepPlusX.charge ≠ lepMinusX.charge) ∧
    ∃ acts, analyze sampleHost selectedEvent = some acts ∧
      fillsOf acts _histMll
        = [sampleHost.mass (lepPlusX.momentum + lepMinusX.momentum) / sampleHost.GeV] ∧
      fillsOf acts _histPtll
        = [sampleHost.pT (lepPlusX.momentum + lepMinusX.momentum) / sampleHost.GeV] ∧
      fillsOf acts _histDphill = [|sampleHost.deltaPhi lepPlusX lepMinusX|] ∧
      fillsOf acts _histLeptonPt1 = [sampleHost.pT lepPlusX.momentum / sampleHost.GeV] ∧
      fillsOf acts _histLeptonPt2 = [sampleHost.pT lepMinusX.momentum / sampleHost.GeV] ∧
      fillsOf acts _histLeptonEta1 = [sampleHost.eta lepPlusX.momentum] ∧
      fillsOf acts _histLeptonEta2 = [sampleHost.eta lepMinusX.momentum] ∧
      fillsOf acts _histMultChNL = [(selectedEvent.cfs_nolep.length : ℚ)] ∧
      fillsOf acts _histEtaChNL
        = selectedEvent.cfs_nolep.map (fun p => sampleHost.eta p.momentum) ∧
      fillsOf acts _histPtChNL
        = selectedEvent.cfs_nolep.map (fun p => sampleHost.pT p.momentum / sampleHost.GeV) :=
  ⟨⟨rfl, by decide⟩,
    C2_selected_event_fills sampleHost selectedEvent lepPlusX lepMinusX rfl (by decide)⟩


/-- C4: whatever the event (vetoed or not, whatever the lepton list),
`analyze` returns and has filled Mult once with the size of FS, MultCh once
with the size of CFS, each of Eta, Rapidity, Pt, E, Phi and the EtaSumEt
profile once per FS particle, and each of EtaCh, RapidityCh, PtCh, ECh, PhiCh
once per CFS particle.  The fills of these objects are the same for any other
event with the same FS and CFS collections. -/
theorem C4_inclusive_fills_unconditional (H : Host) (ev : Event) :
    ∃ acts, analyze H ev = some acts ∧
      fillsOf acts _histMult = [(ev.fs.length : ℚ)] ∧
      fillsOf acts _histMultCh = [(ev.cfs.length : ℚ)] ∧
      fillsOf acts _histEta = ev.fs.map (fun p => H.eta p.momentum) ∧
      fillsOf acts _histRapidity = ev.fs.map (fun p => H.rap p.momentum) ∧
      fillsOf acts _histPt = ev.fs.map (fun p => H.pT p.momentum / H.GeV) ∧
      fillsOf acts _histE = ev.fs.map (fun p => p.momentum.E / H.GeV) ∧
      fillsOf acts _histPhi = ev.fs.map (fun p => H.phi p.momentum) ∧
      profileFillsOf acts _histEtaSumEt
        = ev.fs.map (fun p => (H.abseta p.momentum, H.Et p.momentum)) ∧
      fillsOf acts _histEtaCh = ev.cfs.map (fun p => H.eta p.momentum) ∧
      fillsOf acts _histRapidityCh = ev.cfs.map (fun p => H.rap p.momentum) ∧
      fillsOf acts _histPtCh = ev.cfs.map (fun p => H.pT p.momentum / H.GeV) ∧
      fillsOf acts _histECh = ev.cfs.map (fun p => p.momentum.E / H.GeV) ∧
      fillsOf acts _histPhiCh = ev.cfs.map (fun p => H.phi p.momentum) ∧
      ∀ ev2 : Event, ev2.fs = ev.fs → ev2.cfs = ev.cfs →
        ∃ acts2, analyze H ev2 = some acts2 ∧
          (∀ h ∈ inclusive, fillsOf acts2 h = fillsOf acts h) ∧
          profileFillsOf acts2 _histEtaSumEt = profileFillsOf acts _histEtaSumEt := by
  obtain ⟨rest, hr, hcase⟩ := analyze_shape H ev
  have hrest : ∀ h, h ∉ postSelection → fillsOf rest h = [] := by
    intro h hh
    rcases hcase with rfl | ⟨k, rfl⟩
    · rfl
    · exact fillsOf_selectedFills_other H ev k h hh
  have hprest : profileFillsOf rest _histEtaSumEt = [] := by
    rcases hcase with rfl | ⟨k, rfl⟩
    · rfl
    · exact profileFillsOf_selectedFills H ev k _
  refine ⟨_, hr, ?_, ?_, ?_, ?_, ?_, ?_, ?_, ?_, ?_, ?_, ?_, ?_, ?_, ?_⟩
  case refine_8 =>
    simp [profileFillsOf_append, hprest, inclusiveFills, fsFills, cfsFills,
      profileFillsOf_flatMap, profileFillsOf_nil, profileFillsOf_cons_fill,
      profileFillsOf_cons_fillProfile, flatMap_single, flatMap_none]
  case refine_14 =>
    intro ev2 hfs hcfs
    obtain ⟨rest2, hr2, hcase2⟩ := analyze_shape H ev2
    have hincl : inclusiveFills H ev2 = inclusiveFills H ev := by
      simp [inclusiveFills, hfs, hcfs]
    refine ⟨_, hr2, ?_, ?_⟩
    · intro h hh
      have hnot : h ∉ postSelection := by
        simp only [inclusive, List.mem_cons, List.mem_singleton, List.not_mem_nil,
          or_false] at hh
        rcases hh with rfl | rfl | rfl | rfl | rfl | rfl | rfl | rfl | rfl | rfl | rfl | rfl <;>
          decide
      have hrest2 : fillsOf rest2 h = [] := by
        rcases hcase2 with rfl | ⟨k, rfl⟩
        · rfl
        · exact fillsOf_selectedFills_other H ev2 k h hnot
      simp [fillsOf_append, hrest h hnot, hrest2, hincl]
    · have hprest2 : profileFillsOf rest2 _histEtaSumEt = [] := by
        rcases hcase2 with rfl | ⟨k, rfl⟩
        · rfl
        · exact profileFillsOf_selectedFills H ev2 k _
      simp [profileFillsOf_append, hprest, hprest2, hincl]
  all_goals
    rw [fillsOf_append, hrest _ (by decide)]
    simp [inclusiveFills, fsFills, cfsFills, fillsOf_append, fillsOf_flatMap, fillsOf_nil,
      fillsOf_cons_fill, fillsOf_cons_fillProfile, ite_eq_iff, flatMap_single, flatMap_none]


/-- C4 at `selectedEvent`. -/
theorem C4_inclusive_fills_witness :
    ∃ acts, analyze sampleHost selectedEvent = some acts ∧
      fillsOf acts _histMult = [3] ∧ fillsOf acts _histMultCh = [3] ∧
      fillsOf acts _histPt = [20, 20, 2] ∧ fillsOf acts _histE = [20, 20, 2] ∧
      fillsOf acts _histPhi = [0, piDouble, 0] ∧
      profileFillsOf acts _histEtaSumEt = [(0, 20), (0, 20), (0, 2)] := by
  obtain ⟨acts, h, h1, h2, -, -, h5, h6, h7, h8, -⟩ :=
    C4_inclusive_fills_unconditional sampleHost selectedEvent
  refine ⟨acts, h, ?_, ?_, ?_, ?_, ?_, ?_⟩
  · rw [h1]; norm_num [selectedEvent]
  · rw [h2]; norm_num [selectedEvent]
  · rw [h5]; norm_num [selectedEvent, sampleHost, lepPlusX, lepMinusX, hadron]
  · rw [h6]; norm_num [selectedEvent, sampleHost, lepPlusX, lepMinusX, hadron]
  · rw [h7]; norm_num [selectedEvent, sampleHost, samplePhi, lepPlusX, lepMinusX, hadron]
  · rw [h8]
    norm_num [selectedEvent, sampleHost, Host.abseta, lepPlusX, lepMinusX, hadron]

/-- C5: with an empty lepton list the locals mll, pTll, dphill, aco, Ptl1 and
Ptl2 are `-1` and Etal1, Etal2 are `-15`; with exactly one lepton Ptl1 and
Etal1 are that lepton's `pT/GeV` and `eta`, while mll, pTll, dphill, aco and
Ptl2 are `-1` and Etal2 is `-15`.  In both cases the locals are computed and
`analyze` returns, that is, no element of `leptons` is read out of bounds. -/
theorem C5_missing_lepton_sentinels (H : Host) :
    kinematics H [] = some
      { dilepton := ⟨0, 0, 0, 0⟩, l1 := ⟨0, 0, 0, 0⟩, l2 := ⟨0, 0, 0, 0⟩
        Etal1 := -15, Etal2 := -15, mll := -1, pTll := -1, dphill := -1, aco := -1
        Ptl1 := -1, Ptl2 := -1 } ∧
    (∀ a : Particle, kinematics H [a] = some
      { dilepton := ⟨0, 0, 0, 0⟩, l1 := a.momentum, l2 := ⟨0, 0, 0, 0⟩
        Etal1 := H.eta a.momentum, Etal2 := -15, mll := -1, pTll := -1, dphill := -1
        aco := -1, Ptl1 := H.pT a.momentum / H.GeV, Ptl2 := -1 }) ∧
    (∀ fs cfs cfs_nolep : List Particle,
      analyze H ⟨[], fs, cfs, cfs_nolep⟩ = some (inclusiveFills H ⟨[], fs, cfs, cfs_nolep⟩)) ∧
    (∀ (a : Particle) (fs cfs cfs_nolep : List Particle),
      analyze H ⟨[a], fs, cfs, cfs_nolep⟩
        = some (inclusiveFills H ⟨[a], fs, cfs, cfs_nolep⟩)) := by
  refine ⟨by simp [kinematics], fun a => by simp [kinematics, readAt], ?_, ?_⟩
  · intro fs cfs nl
    exact analyze_not_two H _ (by simp)
  · intro a fs cfs nl
    exact analyze_not_two H _ (by simp)

/-- C10: the sign split is a partition.  Each FS particle fills exactly one of
TMP/EtaPlus and TMP/EtaMinus, Plus when `eta > 0` and Minus when `eta ≤ 0`,
with the value `|eta|`, and exactly one of TMP/RapPlus and TMP/RapMinus with
`|rapidity|`; likewise each CFS particle for the four charged temporaries.
Every value filled is non-negative, and in one `analyze` call the Plus and
Minus histograms together receive as many fills as Eta, Rapidity, EtaCh and
RapidityCh respectively. -/
theorem C10_sign_split_partition (H : Host) (ev : Event) :
    ∃ acts, analyze H ev = some acts ∧
      fillsOf acts _tmphistEtaPlus
        = (ev.fs.filter fun p => decide (H.eta p.momentum > 0)).map
            (fun p => |H.eta p.momentum|) ∧
      fillsOf acts _tmphistEtaMinus
        = (ev.fs.filter fun p => decide (H.eta p.momentum ≤ 0)).map
            (fun p => |H.eta p.momentum|) ∧
      fillsOf acts _tmphistRapPlus
        = (ev.fs.filter fun p => decide (H.rap p.momentum > 0)).map
            (fun p => |H.rap p.momentum|) ∧
      fillsOf acts _tmphistRapMinus
        = (ev.fs.filter fun p => decide (H.rap p.momentum ≤ 0)).map
            (fun p => |H.rap p.momentum|) ∧
      fillsOf acts _tmphistEtaChPlus
        = (ev.cfs.filter fun p => decide (H.eta p.momentum > 0)).map
            (fun p => |H.eta p.momentum|) ∧
      fillsOf acts _tmphistEtaChMinus
        = (ev.cfs.filter fun p => decide (H.eta p.momentum ≤ 0)).map
            (fun p => |H.eta p.momentum|) ∧
      fillsOf acts _tmphistRapChPlus
        = (ev.cfs.filter fun p => decide (H.rap p.momentum > 0)).map
            (fun p => |H.rap p.momentum|) ∧
      fillsOf acts _tmphistRapChMinus
        = (ev.cfs.filter fun p => decide (H.rap p.momentum ≤ 0)).map
            (fun p => |H.rap p.momentum|) ∧
      (fillsOf acts _tmphistEtaPlus).length + (fillsOf acts _tmphistEtaMinus).length
        = (fillsOf acts _histEta).length ∧
      (fillsOf acts _tmphistRapPlus).length + (fillsOf acts _tmphistRapMinus).length
        = (fillsOf acts _histRapidity).length ∧
      (fillsOf acts _tmphistEtaChPlus).length + (fillsOf acts _tmphistEtaChMinus).length
        = (fillsOf acts _histEtaCh).length ∧
      (fillsOf acts _tmphistRapChPlus).length + (fillsOf acts _tmphistRapChMinus).length
        = (fillsOf acts _histRapidityCh).length ∧
      (∀ h ∈ temporaries, ∀ x ∈ fillsOf acts h, 0 ≤ x) ∧
      (∀ p : Particle,
        (fillsOf (fsFills H p) _tmphistEtaPlus, fillsOf (fsFills H p) _tmphistEtaMinus)
          = if H.eta p.momentum > 0 then ([|H.eta p.momentum|], [])
            else ([], [|H.eta p.momentum|])) ∧
      (∀ p : Particle,
        (fillsOf (fsFills H p) _tmphistRapPlus, fillsOf (fsFills H p) _tmphistRapMinus)
          = if H.rap p.momentum > 0 then ([|H.rap p.momentum|], [])
            else ([], [|H.rap p.momentum|])) ∧
      (∀ p : Particle,
        (fillsOf (cfsFills H p) _tmphistEtaChPlus, fillsOf (cfsFills H p) _tmphistEtaChMinus)
          = if H.eta p.momentum > 0 then ([|H.eta p.momentum|], [])
            else ([], [|H.eta p.momentum|])) ∧
      (∀ p : Particle,
        (fillsOf (cfsFills H p) _tmphistRapChPlus, fillsOf (cfsFills H p) _tmphistRapChMinus)
          = if H.rap p.momentum > 0 then ([|H.rap p.momentum|], [])
            else ([], [|H.rap p.momentum|])) := by
  obtain ⟨rest, hr, hcase⟩ := analyze_shape H ev
  have hrest : ∀ h, h ∉ postSelection → fillsOf rest h = [] := by
    intro h hh
    rcases hcase with rfl | ⟨k, rfl⟩
    · rfl
    · exact fillsOf_selectedFills_other H ev k h hh
  have key : ∀ h, h ∉ postSelection →
      fillsOf (inclusiveFills H ev ++ rest) h = fillsOf (inclusiveFills H ev) h := by
    intro h hh
    rw [fillsOf_append, hrest h hh, List.append_nil]
  have e1 : fillsOf (inclusiveFills H ev) _tmphistEtaPlus
      = (ev.fs.filter fun p => decide (H.eta p.momentum > 0)).map
          (fun p => |H.eta p.momentum|) := by
    simp [inclusiveFills, fsFills, cfsFills, Host.abseta, fillsOf_append, fillsOf_flatMap,
      fillsOf_nil, fillsOf_cons_fill, fillsOf_cons_fillProfile, ite_eq_iff, flatMap_guard,
      flatMap_none]
  have e2 : fillsOf (inclusiveFills H ev) _tmphistEtaMinus
      = (ev.fs.filter fun p => decide (¬ H.eta p.momentum > 0)).map
          (fun p => |H.eta p.momentum|) := by
    simp [inclusiveFills, fsFills, cfsFills, Host.abseta, fillsOf_append, fillsOf_flatMap,
      fillsOf_nil, fillsOf_cons_fill, fillsOf_cons_fillProfile, ite_eq_iff, flatMap_guard,
      flatMap_none]
  have e3 : fillsOf (inclusiveFills H ev) _tmphistRapPlus
      = (ev.fs.filter fun p => decide (H.rap p.momentum > 0)).map
          (fun p => |H.rap p.momentum|) := by
    simp [inclusiveFills, fsFills, cfsFills, Host.absrap, fillsOf_append, fillsOf_flatMap,
      fillsOf_nil, fillsOf_cons_fill, fillsOf_cons_fillProfile, ite_eq_iff, flatMap_guard,
      flatMap_none]
  have e4 : fillsOf (inclusiveFills H ev) _tmphistRapMinus
      = (ev.fs.filter fun p => decide (¬ H.rap p.momentum > 0)).map
          (fun p => |H.rap p.momentum|) := by
    simp [inclusiveFills, fsFills, cfsFills, Host.absrap, fillsOf_append, fillsOf_flatMap,
      fillsOf_nil, fillsOf_cons_fill, fillsOf_cons_fillProfile, ite_eq_iff, flatMap_guard,
      flatMap_none]
  have e5 : fillsOf (inclusiveFills H ev) _tmphistEtaChPlus
      = (ev.cfs.filter fun p => decide (H.eta p.momentum > 0)).map
          (fun p => |H.eta p.momentum|) := by
    simp [inclusiveFills, fsFills, cfsFills, Host.abseta, fillsOf_append, fillsOf_flatMap,
      fillsOf_nil, fillsOf_cons_fill, fillsOf_cons_fillProfile, ite_eq_iff, flatMap_guard,
      flatMap_none]
  have e6 : fillsOf (inclusiveFills H ev) _tmphistEtaChMinus
      = (ev.cfs.filter fun p => decide (¬ H.eta p.momentum > 0)).map
          (fun p => |H.eta p.momentum|) := by
    simp [inclusiveFills, fsFills, cfsFills, Host.abseta, fillsOf_append, fillsOf_flatMap,
      fillsOf_nil, fillsOf_cons_fill, fillsOf_cons_fillProfile, ite_eq_iff, flatMap_guard,
      flatMap_none]
  have e7 : fillsOf (inclusiveFills H ev) _tmphistRapChPlus
      = (ev.cfs.filter fun p => decide (H.rap p.momentum > 0)).map
          (fun p => |H.rap p.momentum|) := by
    simp [inclusiveFills, fsFills, cfsFills, Host.absrap, fillsOf_append, fillsOf_flatMap,
      fillsOf_nil, fillsOf_cons_fill, fillsOf_cons_fillProfile, ite_eq_iff, flatMap_guard,
      flatMap_none]
  have e8 : fillsOf (inclusiveFills H ev) _tmphistRapChMinus
      = (ev.cfs.filter fun p => decide (¬ H.rap p.momentum > 0)).map
          (fun p => |H.rap p.momentum|) := by
    simp [inclusiveFills, fsFills, cfsFills, Host.absrap, fillsOf_append, fillsOf_flatMap,
      fillsOf_nil, fillsOf_cons_fill, fillsOf_cons_fillProfile, ite_eq_iff, flatMap_guard,
      flatMap_none]
  have n1 : fillsOf (inclusiveFills H ev) _histEta = ev.fs.map (fun p => H.eta p.momentum) := by
    simp [inclusiveFills, fsFills, cfsFills, fillsOf_append, fillsOf_flatMap, fillsOf_nil,
      fillsOf_cons_fill, fillsOf_cons_fillProfile, ite_eq_iff, flatMap_single, flatMap_none]
  have n2 : fillsOf (inclusiveFills H ev) _histRapidity
      = ev.fs.map (fun p => H.rap p.momentum) := by
    simp [inclusiveFills, fsFills, cfsFills, fillsOf_append, fillsOf_flatMap, fillsOf_nil,
      fillsOf_cons_fill, fillsOf_cons_fillProfile, ite_eq_iff, flatMap_single, flatMap_none]
  have n3 : fillsOf (inclusiveFills H ev) _histEtaCh
      = ev.cfs.map (fun p => H.eta p.momentum) := by
    simp [inclusiveFills, fsFills, cfsFills, fillsOf_append, fillsOf_flatMap, fillsOf_nil,
      fillsOf_cons_fill, fillsOf_cons_fillProfile, ite_eq_iff, flatMap_single, flatMap_none]
  have n4 : fillsOf (inclusiveFills H ev) _histRapidityCh
      = ev.cfs.map (fun p => H.rap p.momentum) := by
    simp [inclusiveFills, fsFills, cfsFills, fillsOf_append, fillsOf_flatMap, fillsOf_nil,
      fillsOf_cons_fill, fillsOf_cons_fillProfile, ite_eq_iff, flatMap_single, flatMap_none]
  have le_iff : ∀ x : ℚ, (x ≤ 0) = (¬ x > 0) := fun x => by simp
  refine ⟨_, hr, ?_, ?_, ?_, ?_, ?_, ?_, ?_, ?_, ?_, ?_, ?_, ?_, ?_, ?_, ?_, ?_, ?_⟩
  · rw [key _ (by decide), e1]
  · rw [key _ (by decide), e2]; simp only [le_iff]
  · rw [key _ (by decide), e3]
  · rw [key _ (by decide), e4]; simp only [le_iff]
  · rw [key _ (by decide), e5]
  · rw [key _ (by decide), e6]; simp only [le_iff]
  · rw [key _ (by decide), e7]
  · rw [key _ (by decide), e8]; simp only [le_iff]
  · rw [key _ (by decide), key _ (by decide), key _ (by decide), e1, e2, n1]
    simp only [List.length_map]
    exact filter_length_split ev.fs (fun p => H.eta p.momentum > 0)
  · rw [key _ (by decide), key _ (by decide), key _ (by decide), e3, e4, n2]
    simp only [List.length_map]
    exact filter_length_split ev.fs (fun p => H.rap p.momentum > 0)
  · rw [key _ (by decide), key _ (by decide), key _ (by decide), e5, e6, n3]
    simp only [List.length_map]
    exact filter_length_split ev.cfs (fun p => H.eta p.momentum > 0)
  · rw [key _ (by decide), key _ (by decide), key _ (by decide), e7, e8, n4]
    simp only [List.length_map]
    exact filter_length_split ev.cfs (fun p => H.rap p.momentum > 0)
  · intro h hh x hx
    simp only [temporaries, List.mem_cons, List.mem_singleton, List.not_mem_nil,
      or_false] at hh
    rcases hh with rfl | rfl | rfl | rfl | rfl | rfl | rfl | rfl
    · rw [key _ (by decide), e1, List.mem_map] at hx
      obtain ⟨p, -, rfl⟩ := hx
      exact abs_nonneg _
    · rw [key _ (by decide), e2, List.mem_map] at hx
      obtain ⟨p, -, rfl⟩ := hx
      exact abs_nonneg _
    · rw [key _ (by decide), e5, List.mem_map] at hx
      obtain ⟨p, -, rfl⟩ := hx
      exact abs_nonneg _
    · rw [key _ (by decide), e6, List.mem_map] at hx
      obtain ⟨p, -, rfl⟩ := hx
      exact abs_nonneg _
    · rw [key _ (by decide), e3, List.mem_map] at hx
      obtain ⟨p, -, rfl⟩ := hx
      exact abs_nonneg _
    · rw [key _ (by decide), e4, List.mem_map] at hx
      obtain ⟨p, -, rfl⟩ := hx
      exact abs_nonneg _
    · rw [key _ (by decide), e7, List.mem_map] at hx
      obtain ⟨p, -, rfl⟩ := hx
      exact abs_nonneg _
    · rw [key _ (by decide), e8, List.mem_map] at hx
      obtain ⟨p, -, rfl⟩ := hx
      exact abs_nonneg _
  · intro p
    by_cases hp : H.eta p.momentum > 0 <;>
      simp [fsFills, Host.abseta, fillsOf_nil, fillsOf_cons_fill, fillsOf_cons_fillProfile,
        ite_eq_iff, hp]
  · intro p
    by_cases hp : H.rap p.momentum > 0 <;>
      simp [fsFills, Host.absrap, fillsOf_nil, fillsOf_cons_fill, fillsOf_cons_fillProfile,
        ite_eq_iff, hp]
  · intro p
    by_cases hp : H.eta p.momentum > 0 <;>
      simp [cfsFills, Host.abseta, fillsOf_nil, fillsOf_cons_fill, ite_eq_iff, hp]
  · intro p
    by_cases hp : H.rap p.momentum > 0 <;>
      simp [cfsFills, Host.absrap, fillsOf_nil, fillsOf_cons_fill, ite_eq_iff, hp]


/-- The kinematic locals of an event with at least two leptons use the first
two entries. -/
theorem kinematics_aco (H : Host) (a b : Particle) (rest : List Particle) :
    ∃ k, kinematics H (a :: b :: rest) = some k ∧
      k.aco = |1 - (H.phi a.momentum - H.phi b.momentum) / H.PI| ∧
      k.dphill = |H.deltaPhi a b| := by
  exact ⟨_, by simp [kinematics, readAt]; rfl, rfl, rfl⟩

/-- C3 fails as stated: for leptons at `phi0 = 3 PI/2` and `phi1 = 0` the
acoplanarity computed by `analyze`, and filled into Acoll, is `1/2`, while
`1 - |phi0 - phi1| / PI` is `-1/2`. -/
theorem C3_counterexample :
    (kinematics sampleHost wideAngleEvent.leptons).map Kinematics.aco = some (1 / 2) ∧
    (analyze sampleHost wideAngleEvent).map (fun acts => fillsOf acts _histAcoll)
      = some [1 / 2] ∧
    1 - |sampleHost.phi lepMinusY.momentum - sampleHost.phi lepPlusX.momentum| / sampleHost.PI
      = -1 / 2 := by
  have hpi : piDouble ≠ 0 := by norm_num [piDouble]
  have e : |1 - 3 * piDouble / 2 / piDouble| = (1 / 2 : ℚ) := by
    rw [show 3 * piDouble / 2 / piDouble = (3 / 2 : ℚ) by field_simp; ring]
    rw [show (1 : ℚ) - 3 / 2 = -(1 / 2) by norm_num, abs_neg]
    exact abs_of_pos (by norm_num)
  have hk := kinematics_two sampleHost lepMinusY lepPlusX
  obtain ⟨k, hk2, hacts⟩ :=
    analyze_selected sampleHost wideAngleEvent lepMinusY lepPlusX rfl (by decide)
  rw [hk] at hk2
  cases hk2
  have haco : |1 - (sampleHost.phi lepMinusY.momentum - sampleHost.phi lepPlusX.momentum)
      / sampleHost.PI| = (1 / 2 : ℚ) := by
    simpa [sampleHost, samplePhi, lepMinusY, lepPlusX] using e
  refine ⟨?_, ?_, ?_⟩
  · show (kinematics sampleHost [lepMinusY, lepPlusX]).map Kinematics.aco = some (1 / 2)
    rw [hk]
    simpa using haco
  · rw [hacts]
    simpa [fillsOf_append, fillsOf_inclusiveFills_postSelection, postSelection, selectedFills,
      fillsOf_flatMap, fillsOf_nil, fillsOf_cons_fill, wideAngleEvent] using haco
  · have e2 : 1 - |3 * piDouble / 2| / piDouble = (-1 / 2 : ℚ) := by
      rw [abs_of_pos (by norm_num [piDouble])]
      rw [show 3 * piDouble / 2 / piDouble = (3 / 2 : ℚ) by field_simp; ring]
      norm_num
    simpa [sampleHost, samplePhi, lepMinusY, lepPlusX] using e2

/-- C3, amended: for an event with at least two dressed leptons whose raw
azimuthal angles satisfy `phi1 ≤ phi0`, the acoplanarity computed by `analyze`
is `|1 - |phi0 - phi1| / PI|` (the absolute value is taken of the whole
expression; the difference is not range-reduced), which is the claimed
`1 - |phi0 - phi1| / PI` when `phi0 - phi1 ≤ PI`; when the two leptons are the
whole list and have opposite charge, that value is the one fill of Acoll. -/
theorem C3_acoplanarity_ordered (H : Host) (ev : Event) (a b : Particle)
    (rest : List Particle) (hl : ev.leptons = a :: b :: rest) (hpi : 0 < H.PI)
    (hord : H.phi b.momentum ≤ H.phi a.momentum) :
    ∃ k, kinematics H ev.leptons = some k ∧
      k.aco = |1 - |H.phi a.momentum - H.phi b.momentum| / H.PI| ∧
      (H.phi a.momentum - H.phi b.momentum ≤ H.PI →
        k.aco = 1 - |H.phi a.momentum - H.phi b.momentum| / H.PI) ∧
      (rest = [] → a.charge ≠ b.charge →
        ∃ acts, analyze H ev = some acts ∧ fillsOf acts _histAcoll = [k.aco]) := by
  obtain ⟨k, hk, haco, -⟩ := kinematics_aco H a b rest
  have habs : |H.phi a.momentum - H.phi b.momentum| = H.phi a.momentum - H.phi b.momentum :=
    abs_of_nonneg (by linarith)
  refine ⟨k, by rw [hl]; exact hk, by rw [haco, habs], ?_, ?_⟩
  · intro hle
    rw [haco, habs]
    apply abs_of_nonneg
    have : (H.phi a.momentum - H.phi b.momentum) / H.PI ≤ 1 := by
      rw [div_le_one hpi]; exact hle
    linarith
  · intro hrest hc
    subst hrest
    obtain ⟨k2, hk2, hacts⟩ := analyze_selected H ev a b hl hc
    rw [hk] at hk2
    cases hk2
    refine ⟨_, hacts, ?_⟩
    simp [fillsOf_append, fillsOf_inclusiveFills_postSelection, postSelection, selectedFills,
      nolepFills, fillsOf_flatMap, fillsOf_nil, fillsOf_cons_fill, flatMap_none]

/-- C3, amended, at two back-to-back leptons with `phi0 = PI` and `phi1 = 0`. -/
theorem C3_acoplanarity_witness :
    (0 < sampleHost.PI ∧ sampleHost.phi lepPlusX.momentum ≤ sampleHost.phi lepMinusX.momentum) ∧
    ∃ k, kinematics sampleHost [lepMinusX, lepPlusX] = some k ∧
      k.aco = |1 - |sampleHost.phi lepMinusX.momentum - sampleHost.phi lepPlusX.momentum|
        / sampleHost.PI| ∧
      (sampleHost.phi lepMinusX.momentum - sampleHost.phi lepPlusX.momentum ≤ sampleHost.PI →
        k.aco = 1 - |sampleHost.phi lepMinusX.momentum - sampleHost.phi lepPlusX.momentum|
          / sampleHost.PI) ∧
      (([] : List Particle) = [] → lepMinusX.charge ≠ lepPlusX.charge →
        ∃ acts, analyze sampleHost ⟨[lepMinusX, lepPlusX], [], [], []⟩ = some acts ∧
          fillsOf acts _histAcoll = [k.aco]) :=
  have hpi : 0 < sampleHost.PI := by norm_num [sampleHost, piDouble]
  have hord : sampleHost.phi lepPlusX.momentum ≤ sampleHost.phi lepMinusX.momentum := by
    norm_num [sampleHost, samplePhi, lepPlusX, lepMinusX, piDouble]
  ⟨⟨hpi, hord⟩,
    C3_acoplanarity_ordered sampleHost ⟨[lepMinusX, lepPlusX], [], [], []⟩ lepMinusX lepPlusX []
      rfl hpi hord⟩


/-- Scaling multiplies the integral by the factor. -/
theorem integral_scale (h : Histo1D) (f : ℚ) : (h.scale f).integral = h.integral * f := by
  obtain ⟨n, lo, hi, entries⟩ := h
  simp only [Histo1D.scale, Histo1D.integral]
  induction entries with
  | nil => simp
  | cons e t ih => simp only [List.map_cons, List.sum_cons, ih]; ring

/-- A histogram of non-zero area has unit area after `normalize`. -/
theorem integral_normalize (h : Histo1D) (hne : h.integral ≠ 0) :
    h.normalize.integral = 1 := by
  rw [Histo1D.normalize, if_neg hne, integral_scale]
  field_simp

/-- C9 fails on the code: for the selected event `offRangeEvent`, whose lepton
azimuthal angles `0` and `PI/2` lie in `[0, 2 PI)`, the value filled into Acoll
is `3/2`, above the upper edge `1.0` with which `init` books Acoll; the value
filled into Dphill, `PI/2`, is inside its booked range `[-3.2, 3.2]`. -/
theorem C9_acoll_fill_above_booked_range :
    (0 ≤ sampleHost.phi lepPlusX.momentum ∧ sampleHost.phi lepPlusX.momentum < sampleHost.TWOPI ∧
      0 ≤ sampleHost.phi lepPlusY.momentum ∧
      sampleHost.phi lepPlusY.momentum < sampleHost.TWOPI) ∧
    lepPlusX.charge ≠ lepPlusY.charge ∧
    (analyze sampleHost offRangeEvent).map (fun acts => fillsOf acts _histAcoll)
      = some [3 / 2] ∧
    bookedBinning (init sampleHost) _histAcoll = some (100, 0, 1.0) ∧
    (1.0 : ℚ) < 3 / 2 ∧
    (analyze sampleHost offRangeEvent).map (fun acts => fillsOf acts _histDphill)
      = some [piDouble / 2] ∧
    bookedBinning (init sampleHost) _histDphill = some (64, -3.2, 3.2) ∧
    (-3.2 : ℚ) ≤ piDouble / 2 ∧ piDouble / 2 ≤ (3.2 : ℚ) := by
  have hpi : piDouble ≠ 0 := by norm_num [piDouble]
  have hpos : (0 : ℚ) < piDouble := by norm_num [piDouble]
  obtain ⟨k, hk, hacts⟩ :=
    analyze_selected sampleHost offRangeEvent lepPlusX lepPlusY rfl (by decide)
  rw [kinematics_two] at hk
  cases hk
  have haco : |1 - (sampleHost.phi lepPlusX.momentum - sampleHost.phi lepPlusY.momentum)
      / sampleHost.PI| = (3 / 2 : ℚ) := by
    have e : |1 - (0 - piDouble / 2) / piDouble| = (3 / 2 : ℚ) := by
      rw [show (1 : ℚ) - (0 - piDouble / 2) / piDouble = 3 / 2 by field_simp; ring]
      exact abs_of_pos (by norm_num)
    simpa [sampleHost, samplePhi, lepPlusX, lepPlusY] using e
  have hdphi : |sampleHost.deltaPhi lepPlusX lepPlusY| = piDouble / 2 := by
    have e1 : |piDouble / 2| = piDouble / 2 := abs_of_pos (by linarith)
    have e2 : ¬ (piDouble < piDouble / 2) := by linarith
    have e3 : sampleHost.deltaPhi lepPlusX lepPlusY = piDouble / 2 := by
      simp only [sampleHost, samplePhi, lepPlusX, lepPlusY]
      norm_num [e1, e2]
    rw [e3]; exact abs_of_pos (by linarith)
  refine ⟨?_, by decide, ?_, ?_, by norm_num, ?_, ?_, ?_, ?_⟩
  · norm_num [sampleHost, samplePhi, lepPlusX, lepPlusY, piDouble]
  · rw [hacts]
    simpa [fillsOf_append, fillsOf_inclusiveFills_postSelection, postSelection, selectedFills,
      fillsOf_flatMap, fillsOf_nil, fillsOf_cons_fill, offRangeEvent] using haco
  · simp [bookedBinning, init]
  · rw [hacts]
    simpa [fillsOf_append, fillsOf_inclusiveFills_postSelection, postSelection, selectedFills,
      fillsOf_flatMap, fillsOf_nil, fillsOf_cons_fill, offRangeEvent] using hdphi
  · simp [bookedBinning, init]
  · norm_num [piDouble]
  · norm_num [piDouble]


/-- The histogram behind `h` after a sequence of `finalize` calls depends only
on the histogram behind `h` before. -/
theorem foldl_finish_histo (calls : List FinalizeCall) (s : Store) (h : HistoHandle) :
    (calls.foldl Store.finish s).histo h
      = calls.foldl (FinalizeCall.onHisto h) (s.histo h) := by
  induction calls generalizing s with
  | nil => rfl
  | cons c t ih =>
    rw [List.foldl_cons, List.foldl_cons, ih]
    congr 1
    cases c with
    | scale k f =>
      by_cases hk : k = h
      · subst hk; simp [Store.finish, Store.setHisto, FinalizeCall.onHisto]
      · have hk2 : ¬ h = k := fun e => hk e.symm
        simp [Store.finish, Store.setHisto, FinalizeCall.onHisto, hk, hk2]
    | normalize k =>
      by_cases hk : k = h
      · subst hk; simp [Store.finish, Store.setHisto, FinalizeCall.onHisto]
      · have hk2 : ¬ h = k := fun e => hk e.symm
        simp [Store.finish, Store.setHisto, FinalizeCall.onHisto, hk, hk2]
    | divide n d o => simp [Store.finish, Store.setScatter, FinalizeCall.onHisto]

/-- The histogram behind `h` after `finalize()`. -/
theorem finalized_histo (s : Store) (crossSection sumOfWeights : ℚ) (h : HistoHandle) :
    (s.finalized crossSection sumOfWeights).histo h
      = (finalize crossSection sumOfWeights).foldl (FinalizeCall.onHisto h) (s.histo h) :=
  foldl_finish_histo _ s h

/-- C6: `finalize` applies one normalisation policy to each histogram it
normalises.  Each of the eleven post-selection histograms is scaled exactly
once, by `crossSection / sumOfWeights`, and never normalised; each of the
twelve inclusive histograms is normalised exactly once and never scaled, so
that it has unit integral afterwards when its integral before was non-zero;
no histogram is both scaled and normalised. -/
theorem C6_finalize_one_policy_each (crossSection sumOfWeights : ℚ) (s : Store) :
    (∀ h ∈ postSelection,
      scalesOf (finalize crossSection sumOfWeights) h = [crossSection / sumOfWeights] ∧
      normalizesOf (finalize crossSection sumOfWeights) h = 0 ∧
      (s.finalized crossSection sumOfWeights).histo h
        = (s.histo h).scale (crossSection / sumOfWeights)) ∧
    (∀ h ∈ inclusive,
      normalizesOf (finalize crossSection sumOfWeights) h = 1 ∧
      scalesOf (finalize crossSection sumOfWeights) h = [] ∧
      (s.finalized crossSection sumOfWeights).histo h = (s.histo h).normalize ∧
      ((s.histo h).integral ≠ 0 →
        ((s.finalized crossSection sumOfWeights).histo h).integral = 1)) ∧
    (∀ h, scalesOf (finalize crossSection sumOfWeights) h = [] ∨
      normalizesOf (finalize crossSection sumOfWeights) h = 0) ∧
    (∀ h, h ∈ postSelection → h ∉ inclusive) := by
  refine ⟨?_, ?_, ?_, ?_⟩
  · intro h hh
    simp only [postSelection, List.mem_cons, List.mem_singleton, List.not_mem_nil,
      or_false] at hh
    rcases hh with rfl | rfl | rfl | rfl | rfl | rfl | rfl | rfl | rfl | rfl | rfl <;>
      exact ⟨rfl, rfl, by rw [finalized_histo]; rfl⟩
  · intro h hh
    have hfin : (s.finalized crossSection sumOfWeights).histo h = (s.histo h).normalize := by
      simp only [inclusive, List.mem_cons, List.mem_singleton, List.not_mem_nil,
        or_false] at hh
      rcases hh with rfl | rfl | rfl | rfl | rfl | rfl | rfl | rfl | rfl | rfl | rfl | rfl <;>
        (rw [finalized_histo]; rfl)
    refine ⟨?_, ?_, hfin, fun hne => by rw [hfin]; exact integral_normalize _ hne⟩
    · simp only [inclusive, List.mem_cons, List.mem_singleton, List.not_mem_nil,
        or_false] at hh
      rcases hh with rfl | rfl | rfl | rfl | rfl | rfl | rfl | rfl | rfl | rfl | rfl | rfl <;>
        rfl
    · simp only [inclusive, List.mem_cons, List.mem_singleton, List.not_mem_nil,
        or_false] at hh
      rcases hh with rfl | rfl | rfl | rfl | rfl | rfl | rfl | rfl | rfl | rfl | rfl | rfl <;>
        rfl
  · intro h
    cases h <;> first | exact Or.inl rfl | exact Or.inr rfl
  · decide

/-- C6 at `sampleStore`, with cross-section 6 and sum of weights 3: Mult,
of integral 4 before `finalize`, has integral 1 afterwards. -/
theorem C6_finalize_witness :
    ((sampleStore.finalized 6 3).histo _histMult).integral = 1 := by
  have hst : sampleStore.histo _histMult = ⟨10, 0, 5, [(1 / 2, 1), (3 / 2, 3)]⟩ := rfl
  have hne : (sampleStore.histo _histMult).integral ≠ 0 := by
    rw [hst]; norm_num [Histo1D.integral]
  exact ((C6_finalize_one_policy_each 6 3 sampleStore).2.1 _histMult (by decide)).2.2.2 hne

/-- C7: after `finalize` each ratio scatter is the bin-by-bin quotient of its
pair of temporaries as they were accumulated, the Plus histogram being the
numerator and the Minus histogram the denominator; `finalize` neither scales
nor normalises a temporary and leaves all eight as they are; and `init` books
all eight with 25 bins on `[0, 5]`. -/
theorem C7_ratio_scatters (H : Host) (crossSection sumOfWeights : ℚ) (s : Store) :
    (s.finalized crossSection sumOfWeights).scatter _histEtaPMRatio
      = divide (s.histo _tmphistEtaPlus) (s.histo _tmphistEtaMinus) ∧
    (s.finalized crossSection sumOfWeights).scatter _histEtaChPMRatio
      = divide (s.histo _tmphistEtaChPlus) (s.histo _tmphistEtaChMinus) ∧
    (s.finalized crossSection sumOfWeights).scatter _histRapidityPMRatio
      = divide (s.histo _tmphistRapPlus) (s.histo _tmphistRapMinus) ∧
    (s.finalized crossSection sumOfWeights).scatter _histRapidityChPMRatio
      = divide (s.histo _tmphistRapChPlus) (s.histo _tmphistRapChMinus) ∧
    dividesInto (finalize crossSection sumOfWeights) _histEtaPMRatio
      = [(_tmphistEtaPlus, _tmphistEtaMinus)] ∧
    dividesInto (finalize crossSection sumOfWeights) _histEtaChPMRatio
      = [(_tmphistEtaChPlus, _tmphistEtaChMinus)] ∧
    dividesInto (finalize crossSection sumOfWeights) _histRapidityPMRatio
      = [(_tmphistRapPlus, _tmphistRapMinus)] ∧
    dividesInto (finalize crossSection sumOfWeights) _histRapidityChPMRatio
      = [(_tmphistRapChPlus, _tmphistRapChMinus)] ∧
    (∀ num den : Histo1D, (divide num den).points
      = (List.range num.nbins).map fun i => num.binSumW i / den.binSumW i) ∧
    (∀ h ∈ temporaries,
      scalesOf (finalize crossSection sumOfWeights) h = [] ∧
      normalizesOf (finalize crossSection sumOfWeights) h = 0 ∧
      (s.finalized crossSection sumOfWeights).histo h = s.histo h ∧
      bookedBinning (init H) h = some (25, 0, 5)) := by
  refine ⟨?_, ?_, ?_, ?_, rfl, rfl, rfl, rfl, fun _ _ => rfl, ?_⟩
  · simp [Store.finalized, finalize, Store.finish, Store.setHisto, Store.setScatter]
  · simp [Store.finalized, finalize, Store.finish, Store.setHisto, Store.setScatter]
  · simp [Store.finalized, finalize, Store.finish, Store.setHisto, Store.setScatter]
  · simp [Store.finalized, finalize, Store.finish, Store.setHisto, Store.setScatter]
  · intro h hh
    simp only [temporaries, List.mem_cons, List.mem_singleton, List.not_mem_nil,
      or_false] at hh
    rcases hh with rfl | rfl | rfl | rfl | rfl | rfl | rfl | rfl <;>
      exact ⟨rfl, rfl, by rw [finalized_histo]; rfl, by simp [bookedBinning, init]⟩

/-- C7 at `sampleStore`: the first three points of EtaPMRatio are `2 / 1`,
`1 / 2` and `0` (both bins empty; the rational `0 / 0 = 0`). -/
theorem C7_ratio_scatters_witness :
    ((sampleStore.finalized 6 3).scatter _histEtaPMRatio).points.take 3 = [2, 1 / 2, 0] := by
  have hplus : sampleStore.histo _tmphistEtaPlus
      = ⟨25, 0, 5, [(1 / 10, 1), (1 / 10, 1), (3 / 10, 1)]⟩ := rfl
  have hminus : sampleStore.histo _tmphistEtaMinus
      = ⟨25, 0, 5, [(1 / 10, 1), (3 / 10, 1), (3 / 10, 1)]⟩ := rfl
  rw [(C7_ratio_scatters sampleHost 6 3 sampleStore).1, hplus, hminus]
  norm_num [divide, Histo1D.binSumW, List.range, List.range.loop, List.filter]

/-- C8: `init` books every histogram, profile and scatter handle of the
analysis exactly once, so every handle that `analyze` fills or `finalize`
scales, normalises or divides is booked exactly once; and the names under
which `init` books its objects are pairwise distinct, "MultCh ", "PtCh " and
"EtaCh " (with the trailing blank) being different from "MultCh", "PtCh" and
"EtaCh". -/
theorem C8_booked_once_distinct_names (H : Host) :
    (∀ h, timesBookedHisto (init H) h = 1) ∧
    (∀ h, timesBookedProfile (init H) h = 1) ∧
    (∀ h, timesBookedScatter (init H) h = 1) ∧
    (∀ ev acts, analyze H ev = some acts → ∀ a ∈ acts, a.bookedOnce (init H)) ∧
    (∀ crossSection sumOfWeights, ∀ c ∈ finalize crossSection sumOfWeights,
      c.bookedOnce (init H)) ∧
    ((init H).map Booking.name).Nodup ∧
    (init H).length = 36 ∧
    Booking.histo _histMultChNL "MultCh " 50 (-0.5) 49.5 ∈ init H ∧
    Booking.histo _histMultCh "MultCh" 100 (-0.5) 99.5 ∈ init H ∧
    Booking.histo _histPtChNL "PtCh " 500 0 500 ∈ init H ∧
    Booking.histo _histPtCh "PtCh" 300 0 300 ∈ init H ∧
    Booking.histo _histEtaChNL "EtaCh " 100 (-5.0) 5.0 ∈ init H ∧
    Booking.histo _histEtaCh "EtaCh" 50 (-5) 5 ∈ init H := by
  have hh : ∀ h, timesBookedHisto (init H) h = 1 := by intro h; cases h <;> rfl
  have hp : ∀ h, timesBookedProfile (init H) h = 1 := by intro h; cases h; rfl
  have hs : ∀ h, timesBookedScatter (init H) h = 1 := by intro h; cases h <;> rfl
  refine ⟨hh, hp, hs, ?_, ?_, by simp [init, Booking.name], rfl, ?_, ?_, ?_, ?_, ?_, ?_⟩
  · intro ev acts _ a _
    cases a with
    | fill h x => exact hh h
    | fillProfile h x y => exact hp h
  · intro xs sw c _
    cases c with
    | scale h f => exact hh h
    | normalize h => exact hh h
    | divide n d o => exact ⟨hh n, hh d, hs o⟩
  all_goals simp [init]

/-- C8 at the concrete host: the names are distinct, the charged-no-lepton
multiplicity histogram is booked once, and so is every handle of the first
`divide` call of `finalize`. -/
theorem C8_booked_once_witness :
    ((init sampleHost).map Booking.name).Nodup ∧
    timesBookedHisto (init sampleHost) _histMultChNL = 1 ∧
    FinalizeCall.bookedOnce (init sampleHost)
      (.divide _tmphistEtaPlus _tmphistEtaMinus _histEtaPMRatio) :=
  have h := C8_booked_once_distinct_names sampleHost
  ⟨h.2.2.2.2.2.1, h.1 _histMultChNL,
    h.2.2.2.2.1 6 3 (.divide _tmphistEtaPlus _tmphistEtaMinus _histEtaPMRatio)
      (by simp [finalize])⟩

end RivetAnalysis_yy
